import Mathlib

/-!
Verification development for the OPD token-allocation engine
(`src/allocationService.js`, with its host routes in `src/app.js` and the
configuration table in `src/config.js`).

Modelling conventions (shallow embedding):
* Times of day (the `"HH:mm"` strings parsed with dayjs and compared with
  `localeCompare`) are modelled as minutes-since-midnight naturals; for
  well-formed fixed-width `"HH:mm"` strings, lexicographic string order
  coincides with numeric order of minutes, so sorting and the dayjs
  `isBefore`/`add` arithmetic are faithfully represented by `Nat` order
  and addition.
* `nanoid()` id generation is modelled by a fresh-id counter `nextId`
  threaded through the store: every created doctor/slot/token takes the
  current counter value as its id.  This captures exactly the property the
  code relies on: newly generated ids differ from all existing ones.
* Dates are equality-compared strings in the source and stay `String`s.
* The `createdAt: new Date().toISOString()` field of a token is wall-clock
  output that no branch of the program ever reads; it is omitted.
* JavaScript in-place mutation of an object found in `db.data.tokens`
  (e.g. `lowest.slotId = laterSlot.id`) is modelled by rewriting the first
  list element with the same id (`updateTokenById`); since ids are unique
  in every reachable store this coincides with reference mutation.
* `Array.prototype.sort` is stable (ES2019); it is modelled by Mathlib's
  stable `List.insertionSort` with the comparator's order relation.
-/

/-- Token lifecycle status: `'SCHEDULED' | 'CANCELLED' | 'NO_SHOW'`. -/
inductive TokenStatus where
  | SCHEDULED
  | CANCELLED
  | NO_SHOW
deriving Repr, DecidableEq

/-- A doctor record as created by `POST /api/doctors` in `src/app.js`:
working window `[startTime, endTime)` in minutes, slot length, per-slot
capacity. -/
structure Doctor where
  id : Nat
  name : String
  startTime : Nat
  endTime : Nat
  slotDurationMinutes : Nat
  maxPatientsPerSlot : Nat
deriving Repr, DecidableEq

/-- A slot record as built in `generateSlotsForDay`. -/
structure Slot where
  id : Nat
  doctorId : Nat
  date : String
  startTime : Nat
  endTime : Nat
  capacity : Nat
deriving Repr, DecidableEq

/-- A token record as built by `createTokenInSlot` (the wall-clock
`createdAt` field is omitted, see the module comment). -/
structure Token where
  id : Nat
  doctorId : Nat
  slotId : Nat
  date : String
  patientName : String
  source : String
  priorityScore : Nat
  status : TokenStatus
deriving Repr, DecidableEq

/-- The lowdb store `db.data` of `src/db.js`, plus the fresh-id counter
modelling `nanoid()`. -/
structure DB where
  doctors : List Doctor
  slots : List Slot
  tokens : List Token
  nextId : Nat
deriving Repr, DecidableEq

/-- The initial store `{ doctors: [], slots: [], tokens: [] }`. -/
def emptyDB : DB := { doctors := [], slots := [], tokens := [], nextId := 0 }

/-- `config.tokenSources` from `src/config.js`. -/
def tokenSources : List String :=
  ["EMERGENCY", "PAID", "FOLLOW_UP", "ONLINE", "WALK_IN"]

/-- `config.priorities[source] || 0` from `src/config.js` together with the
`|| 0` default of `getPriorityScore`: the fixed score table, any unknown
key yielding `0`. -/
def getPriorityScore (source : String) : Nat :=
  if source = "EMERGENCY" then 5
  else if source = "PAID" then 4
  else if source = "FOLLOW_UP" then 3
  else if source = "ONLINE" then 2
  else if source = "WALK_IN" then 1
  else 0

/-- `db.data.doctors.find((d) => d.id === doctorId)`. -/
def getDoctorById (db : DB) (doctorId : Nat) : Option Doctor :=
  db.doctors.find? (fun d => decide (d.id = doctorId))

/-- Comparator of `getSlotsForDoctorDay`'s sort:
`a.startTime.localeCompare(b.startTime)`, ascending by start time. -/
def slotLe (a b : Slot) : Prop := a.startTime ≤ b.startTime

instance : DecidableRel slotLe := fun a b => Nat.decLe a.startTime b.startTime

instance : IsTotal Slot slotLe := ⟨fun a b => Nat.le_total a.startTime b.startTime⟩

instance : IsTrans Slot slotLe := ⟨fun _ _ _ h₁ h₂ => Nat.le_trans h₁ h₂⟩

/-- Comparator of `getTokensForSlot`'s sort:
`(a, b) => b.priorityScore - a.priorityScore`, descending by score. -/
def tokGe (a b : Token) : Prop := b.priorityScore ≤ a.priorityScore

instance : DecidableRel tokGe := fun a b => Nat.decLe b.priorityScore a.priorityScore

instance : IsTotal Token tokGe := ⟨fun a b => Nat.le_total b.priorityScore a.priorityScore⟩

instance : IsTrans Token tokGe := ⟨fun _ _ _ h₁ h₂ => Nat.le_trans h₂ h₁⟩

/-- `getSlotsForDoctorDay`: filter the store's slots by doctor and date and
sort ascending by start time (stable, like `Array.prototype.sort`). -/
def getSlotsForDoctorDay (db : DB) (doctorId : Nat) (date : String) : List Slot :=
  List.insertionSort slotLe
    (db.slots.filter (fun s => decide (s.doctorId = doctorId ∧ s.date = date)))

/-- `getTokensForSlot`: the SCHEDULED tokens of a slot, sorted descending
by priority score (stable). -/
def getTokensForSlot (db : DB) (slotId : Nat) : List Token :=
  List.insertionSort tokGe
    (db.tokens.filter (fun t => decide (t.slotId = slotId ∧ t.status = TokenStatus.SCHEDULED)))

/-- The slot-emitting loop of `generateSlotsForDay`:
`while (current.isBefore(end)) { push slot [current, current+dur); current += dur }`,
threading the fresh-id counter.  The loop body never tests
`slotDurationMinutes`; the extra `0 < dur` conjunct in the guard makes the
Lean function total, and is vacuous in the only regime where the source
terminates at all (`dur ≥ 1`, claim C10). -/
def buildSlotsFuel (doctorId : Nat) (date : String) (dur cap endT : Nat) :
    Nat → Nat → Nat → List Slot
  | 0, _, _ => []
  | fuel + 1, nid, current =>
    if current < endT ∧ 0 < dur then
      { id := nid, doctorId := doctorId, date := date, startTime := current,
        endTime := current + dur, capacity := cap } ::
        buildSlotsFuel doctorId date dur cap endT fuel (nid + 1) (current + dur)
    else []

/-- The loop of `generateSlotsForDay`, entered at cursor `current`: the
fuel `endT - current` bounds the number of iterations (each iteration
advances the cursor by `dur ≥ 1` minutes, claim C10) and is never
exhausted before the `current < endT` guard fails, so this function
satisfies exactly the `while`-loop unfolding `buildSlots_step` below. -/
def buildSlots (doctorId : Nat) (date : String) (dur cap endT : Nat) (nid current : Nat) :
    List Slot :=
  buildSlotsFuel doctorId date dur cap endT (endT - current) nid current

/-- `generateSlotsForDay(doctor, date)`: return the existing slots of
(doctor.id, date) if any, otherwise build the day's slots from the
doctor's working window and push them into the store. -/
def generateSlotsForDay (db : DB) (doctor : Doctor) (date : String) : List Slot × DB :=
  let existing := db.slots.filter (fun s => decide (s.doctorId = doctor.id ∧ s.date = date))
  if existing.length > 0 then (existing, db)
  else
    let slots := buildSlots doctor.id date doctor.slotDurationMinutes
      doctor.maxPatientsPerSlot doctor.endTime db.nextId doctor.startTime
    (slots, { db with slots := db.slots ++ slots, nextId := db.nextId + slots.length })

/-- Outcome of `allocateToken`: the two thrown errors, the `null`
"fully booked" signal, or the created token. -/
inductive AllocResult where
  | invalidSource
  | doctorNotFound
  | noCapacity
  | token (t : Token)
deriving Repr, DecidableEq

/-- `createTokenInSlot(slot)` of `allocateToken`: build a SCHEDULED token
in the given slot and push it into the store. -/
def createTokenInSlot (db : DB) (doctorId : Nat) (date patientName source : String)
    (priorityScore : Nat) (slot : Slot) : AllocResult × DB :=
  let token : Token :=
    { id := db.nextId, doctorId := doctorId, slotId := slot.id, date := date,
      patientName := patientName, source := source, priorityScore := priorityScore,
      status := TokenStatus.SCHEDULED }
  (AllocResult.token token, { db with tokens := db.tokens ++ [token], nextId := db.nextId + 1 })

/-- The first-free-slot scan (`for (const slot of slots) if (scheduled.length
< slot.capacity) ...`), used both by pass 1 of `allocateToken` and by the
inner `for (let j = i + 1; ...)` search of the emergency path. -/
def findFirstFreeSlot (db : DB) : List Slot → Option Slot
  | [] => none
  | s :: rest =>
    if (getTokensForSlot db s.id).length < s.capacity then some s
    else findFirstFreeSlot db rest

/-- Rewrite the first token carrying the given id (the shallow model of
JavaScript's in-place mutation of the object found in `db.data.tokens`). -/
def updateTokenById (tid : Nat) (f : Token → Token) : List Token → List Token
  | [] => []
  | t :: ts => if t.id = tid then f t :: ts else t :: updateTokenById tid f ts

/-- The emergency pass (`for (let i = 0; i < slots.length; i++) ...` of
`allocateToken`): recheck capacity, inspect the slot's lowest-priority
SCHEDULED occupant (`scheduled[scheduled.length - 1]`), skip when absent or
of score `>=` the request's, otherwise search strictly later slots for free
capacity, and on success move the occupant there and create the emergency
token in the vacated slot. -/
def emergencyLoop (db : DB) (doctorId : Nat) (date patientName source : String)
    (priorityScore : Nat) : List Slot → AllocResult × DB
  | [] => (AllocResult.noCapacity, db)
  | slot :: rest =>
    let scheduled := getTokensForSlot db slot.id
    if scheduled.length < slot.capacity then
      createTokenInSlot db doctorId date patientName source priorityScore slot
    else
      match scheduled.getLast? with
      | none => emergencyLoop db doctorId date patientName source priorityScore rest
      | some lowest =>
        if priorityScore ≤ lowest.priorityScore then
          emergencyLoop db doctorId date patientName source priorityScore rest
        else
          match findFirstFreeSlot db rest with
          | none => emergencyLoop db doctorId date patientName source priorityScore rest
          | some laterSlot =>
            let db2 : DB :=
              { db with tokens :=
                  updateTokenById lowest.id (fun t => { t with slotId := laterSlot.id }) db.tokens }
            createTokenInSlot db2 doctorId date patientName source priorityScore slot

/-- `allocateToken({doctorId, date, source, patientName, emergency})`:
resolve and validate the effective source, resolve the doctor, ensure the
day's slots exist, then pass 1 (earliest fit) and, for emergencies only,
pass 2 (displacement). -/
def allocateToken (db : DB) (doctorId : Nat) (date source patientName : String)
    (emergency : Bool) : AllocResult × DB :=
  let normalizedSource := if emergency then "EMERGENCY" else source
  if tokenSources.contains normalizedSource then
    match getDoctorById db doctorId with
    | none => (AllocResult.doctorNotFound, db)
    | some doctor =>
      let db1 := (generateSlotsForDay db doctor date).2
      let slots := getSlotsForDoctorDay db1 doctorId date
      let priorityScore := getPriorityScore normalizedSource
      match findFirstFreeSlot db1 slots with
      | some slot => createTokenInSlot db1 doctorId date patientName normalizedSource priorityScore slot
      | none =>
        if emergency then
          emergencyLoop db1 doctorId date patientName normalizedSource priorityScore slots
        else (AllocResult.noCapacity, db1)
  else (AllocResult.invalidSource, db)

/-- The `slots.findIndex((s) => s.id === freedSlotId)` lookup of
`rebalanceAfterFreeSlot`, fused with the subsequent loop start at
`freedIndex + 1`: `some rest` is the sublist of slots strictly after the
first slot carrying the freed id, `none` means `findIndex` returned `-1`. -/
def slotsAfterFreed (freedSlotId : Nat) : List Slot → Option (List Slot)
  | [] => none
  | s :: rest => if s.id = freedSlotId then some rest else slotsAfterFreed freedSlotId rest

/-- The scan of `rebalanceAfterFreeSlot` over the slots after the freed
one: at the first later slot with a SCHEDULED token, move that slot's
highest-priority token (`laterTokens[0]`) into the freed slot and stop. -/
def rebalanceLoop (db : DB) (freedSlotId : Nat) : List Slot → DB
  | [] => db
  | laterSlot :: rest =>
    match getTokensForSlot db laterSlot.id with
    | [] => rebalanceLoop db freedSlotId rest
    | candidate :: _ =>
      { db with tokens :=
          updateTokenById candidate.id (fun t => { t with slotId := freedSlotId }) db.tokens }

/-- `rebalanceAfterFreeSlot(doctorId, date, freedSlotId)`. -/
def rebalanceAfterFreeSlot (db : DB) (doctorId : Nat) (date : String) (freedSlotId : Nat) : DB :=
  let slots := getSlotsForDoctorDay db doctorId date
  match slotsAfterFreed freedSlotId slots with
  | none => db
  | some rest => rebalanceLoop db freedSlotId rest

/-- `cancelToken(tokenId)`: fail unless a token with the id exists and is
SCHEDULED; otherwise set it CANCELLED and rebalance its vacated slot. -/
def cancelToken (db : DB) (tokenId : Nat) : Option Token × DB :=
  match db.tokens.find? (fun t => decide (t.id = tokenId)) with
  | none => (none, db)
  | some token =>
    if token.status = TokenStatus.SCHEDULED then
      let db1 : DB :=
        { db with tokens :=
            updateTokenById tokenId (fun t => { t with status := TokenStatus.CANCELLED }) db.tokens }
      (some { token with status := TokenStatus.CANCELLED },
        rebalanceAfterFreeSlot db1 token.doctorId token.date token.slotId)
    else (none, db)

/-- `markNoShow(tokenId)`: identical to `cancelToken` with NO_SHOW. -/
def markNoShow (db : DB) (tokenId : Nat) : Option Token × DB :=
  match db.tokens.find? (fun t => decide (t.id = tokenId)) with
  | none => (none, db)
  | some token =>
    if token.status = TokenStatus.SCHEDULED then
      let db1 : DB :=
        { db with tokens :=
            updateTokenById tokenId (fun t => { t with status := TokenStatus.NO_SHOW }) db.tokens }
      (some { token with status := TokenStatus.NO_SHOW },
        rebalanceAfterFreeSlot db1 token.doctorId token.date token.slotId)
    else (none, db)

/-- One entry of `getSchedule`'s per-slot token projection. -/
structure TokenView where
  id : Nat
  patientName : String
  source : String
  priorityScore : Nat
  status : TokenStatus
deriving Repr, DecidableEq

/-- One entry of `getSchedule`'s slot projection. -/
structure SlotView where
  slotId : Nat
  startTime : Nat
  endTime : Nat
  capacity : Nat
  booked : Nat
  tokens : List TokenView
deriving Repr, DecidableEq

/-- `getSchedule(doctorId, date)`: the read-only day view. -/
def getSchedule (db : DB) (doctorId : Nat) (date : String) : List SlotView :=
  (getSlotsForDoctorDay db doctorId date).map (fun slot =>
    let scheduled := getTokensForSlot db slot.id
    { slotId := slot.id, startTime := slot.startTime, endTime := slot.endTime,
      capacity := slot.capacity, booked := scheduled.length,
      tokens := scheduled.map (fun t =>
        { id := t.id, patientName := t.patientName, source := t.source,
          priorityScore := t.priorityScore, status := t.status }) })

/-- The doctor-creation route `POST /api/doctors` of `src/app.js`: push a
new doctor with a fresh id.  (The route rejects requests in which any of
the five fields is falsy; in this `Nat` model that is the positivity of
`slotDurationMinutes` and `maxPatientsPerSlot`, imposed on the transition
in `Step.createDoctor`.) -/
def createDoctor (db : DB) (name : String) (startTime endTime dur cap : Nat) : Doctor × DB :=
  let doctor : Doctor :=
    { id := db.nextId, name := name, startTime := startTime, endTime := endTime,
      slotDurationMinutes := dur, maxPatientsPerSlot := cap }
  (doctor, { db with doctors := db.doctors ++ [doctor], nextId := db.nextId + 1 })

/-- Number of SCHEDULED tokens of a token list referencing a slot id (the
quantity `getTokensForSlot(slot.id).length` that the capacity checks
compare against `slot.capacity`). -/
def countSched (l : List Token) (sid : Nat) : Nat :=
  (l.filter (fun t => decide (t.slotId = sid ∧ t.status = TokenStatus.SCHEDULED))).length

/-- Contribution of one token to `countSched`. -/
def schedFlag (t : Token) (sid : Nat) : Nat :=
  if t.slotId = sid ∧ t.status = TokenStatus.SCHEDULED then 1 else 0

/-- One transition of the system: any call of one of the public operations
of `allocationService.js` (claim C1's list), plus the host's
doctor-creation route, without which no doctor — and hence no token — is
ever reachable from the empty store.  `getSchedule` reads the store
without writing it. -/
inductive Step : DB → DB → Prop where
  | createDoctor (db : DB) (name : String) (startTime endTime dur cap : Nat)
      (hdur : 0 < dur) (hcap : 0 < cap) :
      Step db (createDoctor db name startTime endTime dur cap).2
  | allocate (db : DB) (doctorId : Nat) (date source patientName : String) (emergency : Bool) :
      Step db (allocateToken db doctorId date source patientName emergency).2
  | cancel (db : DB) (tokenId : Nat) : Step db (cancelToken db tokenId).2
  | noShow (db : DB) (tokenId : Nat) : Step db (markNoShow db tokenId).2
  | genSlots (db : DB) (doctor : Doctor) (date : String) :
      Step db (generateSlotsForDay db doctor date).2
  | readSchedule (db : DB) (doctorId : Nat) (date : String) : Step db db

/-- States reachable from the empty store by public operations. -/
inductive Reachable : DB → Prop where
  | empty : Reachable emptyDB
  | step {db db' : DB} : Reachable db → Step db db' → Reachable db'

/-- The inductive invariant of the store: unique slot ids, unique token
ids, all ids and slot references below the fresh-id counter, well-formed
doctors, and the capacity bound (claim C1). -/
def StoreInv (db : DB) : Prop :=
  (db.slots.map Slot.id).Nodup ∧
  (db.tokens.map Token.id).Nodup ∧
  (∀ s ∈ db.slots, s.id < db.nextId) ∧
  (∀ t ∈ db.tokens, t.id < db.nextId ∧ t.slotId < db.nextId) ∧
  (∀ d ∈ db.doctors, 0 < d.slotDurationMinutes ∧ 0 < d.maxPatientsPerSlot) ∧
  (∀ s ∈ db.slots, countSched db.tokens s.id ≤ s.capacity)

instance (db : DB) : Decidable (StoreInv db) := by
  unfold StoreInv
  infer_instance

/-! ### Basic counting lemmas -/

lemma countSched_nil (sid : Nat) : countSched [] sid = 0 := rfl

lemma countSched_cons (t : Token) (l : List Token) (sid : Nat) :
    countSched (t :: l) sid = schedFlag t sid + countSched l sid := by
  by_cases h : t.slotId = sid ∧ t.status = TokenStatus.SCHEDULED
  · simp [countSched, schedFlag, List.filter_cons, h]
    omega
  · simp [countSched, schedFlag, List.filter_cons, h]

lemma countSched_append (l₁ l₂ : List Token) (sid : Nat) :
    countSched (l₁ ++ l₂) sid = countSched l₁ sid + countSched l₂ sid := by
  simp [countSched, List.filter_append]

lemma countSched_singleton (t : Token) (sid : Nat) :
    countSched [t] sid = schedFlag t sid := by
  simpa using countSched_cons t [] sid

lemma countSched_eq_zero_of_lt (l : List Token) (n sid : Nat)
    (h : ∀ t ∈ l, t.slotId < n) (hs : n ≤ sid) : countSched l sid = 0 := by
  induction l with
  | nil => rfl
  | cons t ts ih =>
    have ht := h t (List.mem_cons_self t ts)
    have hflag : schedFlag t sid = 0 := by
      have : t.slotId ≠ sid := by omega
      simp [schedFlag, this]
    rw [countSched_cons, hflag, ih (fun u hu => h u (List.mem_cons_of_mem t hu))]

lemma length_getTokensForSlot (db : DB) (sid : Nat) :
    (getTokensForSlot db sid).length = countSched db.tokens sid := by
  simp [getTokensForSlot, countSched, List.length_insertionSort]

lemma mem_getTokensForSlot {db : DB} {sid : Nat} {t : Token} :
    t ∈ getTokensForSlot db sid ↔
      t ∈ db.tokens ∧ t.slotId = sid ∧ t.status = TokenStatus.SCHEDULED := by
  simp [getTokensForSlot, List.mem_insertionSort, List.mem_filter]

lemma mem_getSlotsForDoctorDay {db : DB} {did : Nat} {date : String} {s : Slot} :
    s ∈ getSlotsForDoctorDay db did date ↔
      s ∈ db.slots ∧ s.doctorId = did ∧ s.date = date := by
  simp [getSlotsForDoctorDay, List.mem_insertionSort, List.mem_filter]

lemma sorted_getSlotsForDoctorDay (db : DB) (did : Nat) (date : String) :
    List.Sorted slotLe (getSlotsForDoctorDay db did date) :=
  List.sorted_insertionSort slotLe _

/-! ### updateTokenById lemmas -/

lemma updateTokenById_map_id (tid : Nat) (f : Token → Token) (hf : ∀ t, (f t).id = t.id) :
    ∀ l : List Token, (updateTokenById tid f l).map Token.id = l.map Token.id
  | [] => rfl
  | t :: ts => by
    by_cases h : t.id = tid
    · simp [updateTokenById, h, hf]
    · simp [updateTokenById, h, updateTokenById_map_id tid f hf ts]

lemma mem_updateTokenById {tid : Nat} {f : Token → Token} :
    ∀ {l : List Token} {v : Token}, v ∈ updateTokenById tid f l →
      v ∈ l ∨ ∃ u ∈ l, v = f u := by
  intro l
  induction l with
  | nil => intro v hv; simp [updateTokenById] at hv
  | cons t ts ih =>
    intro v hv
    by_cases h : t.id = tid
    · simp only [updateTokenById, if_pos h] at hv
      rcases List.mem_cons.mp hv with rfl | hv'
      · exact Or.inr ⟨t, List.mem_cons_self t ts, rfl⟩
      · exact Or.inl (List.mem_cons_of_mem t hv')
    · simp only [updateTokenById, if_neg h] at hv
      rcases List.mem_cons.mp hv with rfl | hv'
      · exact Or.inl (List.mem_cons_self v ts)
      · rcases ih hv' with h1 | ⟨u, hu, rfl⟩
        · exact Or.inl (List.mem_cons_of_mem t h1)
        · exact Or.inr ⟨u, List.mem_cons_of_mem t hu, rfl⟩

lemma updateTokenById_mem_of_ne {tid : Nat} {f : Token → Token} :
    ∀ {l : List Token} {u : Token}, u ∈ l → u.id ≠ tid → u ∈ updateTokenById tid f l := by
  intro l
  induction l with
  | nil => intro u hu; simp at hu
  | cons t ts ih =>
    intro u hu hne
    rcases List.mem_cons.mp hu with rfl | hu'
    · simp only [updateTokenById, if_neg hne]
      exact List.mem_cons_self _ _
    · by_cases h : t.id = tid
      · simp only [updateTokenById, if_pos h]
        exact List.mem_cons_of_mem _ hu'
      · simp only [updateTokenById, if_neg h]
        exact List.mem_cons_of_mem t (ih hu' hne)

lemma countSched_updateTokenById (f : Token → Token) (sid : Nat) :
    ∀ (l : List Token), (l.map Token.id).Nodup → ∀ t0 ∈ l,
      countSched (updateTokenById t0.id f l) sid + schedFlag t0 sid
        = countSched l sid + schedFlag (f t0) sid := by
  intro l
  induction l with
  | nil => intro _ t0 ht0; simp at ht0
  | cons u l' ih =>
    intro hnd t0 ht0
    rw [List.map_cons, List.nodup_cons] at hnd
    by_cases hc : u.id = t0.id
    · have ht0u : t0 = u := by
        rcases List.mem_cons.mp ht0 with rfl | hmem
        · rfl
        · exact absurd (hc ▸ List.mem_map_of_mem Token.id hmem) hnd.1
      subst ht0u
      simp [updateTokenById, countSched_cons]
      omega
    · have hmem : t0 ∈ l' := by
        rcases List.mem_cons.mp ht0 with rfl | hm
        · exact absurd rfl hc
        · exact hm
      simp only [updateTokenById, if_neg hc, countSched_cons]
      have := ih hnd.2 t0 hmem
      omega

/-! ### buildSlots lemmas -/

lemma buildSlotsFuel_congr (doctorId : Nat) (date : String) (dur cap endT : Nat) :
    ∀ (f₁ f₂ nid current : Nat), endT - current ≤ f₁ → endT - current ≤ f₂ →
      buildSlotsFuel doctorId date dur cap endT f₁ nid current
        = buildSlotsFuel doctorId date dur cap endT f₂ nid current := by
  intro f₁
  induction f₁ with
  | zero =>
    intro f₂ nid current h₁ h₂
    cases f₂ with
    | zero => rfl
    | succ f₂ =>
      have : ¬ (current < endT ∧ 0 < dur) := by omega
      simp only [buildSlotsFuel, if_neg this]
  | succ f₁ ih =>
    intro f₂ nid current h₁ h₂
    cases f₂ with
    | zero =>
      have : ¬ (current < endT ∧ 0 < dur) := by omega
      simp only [buildSlotsFuel, if_neg this]
    | succ f₂ =>
      by_cases h : current < endT ∧ 0 < dur
      · simp only [buildSlotsFuel, if_pos h]
        rw [ih f₂ (nid + 1) (current + dur) (by omega) (by omega)]
      · simp only [buildSlotsFuel, if_neg h]

/-- The `while (current.isBefore(end))` unfolding of the slot-emitting
loop. -/
lemma buildSlots_step (doctorId : Nat) (date : String) (dur cap endT nid current : Nat) :
    buildSlots doctorId date dur cap endT nid current
      = if current < endT ∧ 0 < dur then
          { id := nid, doctorId := doctorId, date := date, startTime := current,
            endTime := current + dur, capacity := cap } ::
            buildSlots doctorId date dur cap endT (nid + 1) (current + dur)
        else [] := by
  unfold buildSlots
  cases hf : endT - current with
  | zero =>
    have : ¬ (current < endT ∧ 0 < dur) := by omega
    rw [if_neg this]
    rfl
  | succ f =>
    simp only [buildSlotsFuel]
    by_cases h : current < endT ∧ 0 < dur
    · rw [if_pos h, if_pos h]
      rw [buildSlotsFuel_congr doctorId date dur cap endT f (endT - (current + dur))
        (nid + 1) (current + dur) (by omega) (by omega)]
    · rw [if_neg h, if_neg h]

lemma buildSlots_fields (doctorId : Nat) (date : String) (dur cap endT : Nat) :
    ∀ (nid current : Nat), ∀ s ∈ buildSlots doctorId date dur cap endT nid current,
      s.doctorId = doctorId ∧ s.date = date ∧ s.capacity = cap ∧
      current ≤ s.startTime ∧ s.startTime < endT ∧ s.endTime = s.startTime + dur := by
  intro nid current
  rw [buildSlots_step]
  split
  · rename_i h
    intro s hs
    rcases List.mem_cons.mp hs with rfl | hs'
    · refine ⟨rfl, rfl, rfl, Nat.le_refl _, h.1, rfl⟩
    · obtain ⟨h1, h2, h3, h4, h5, h6⟩ :=
        buildSlots_fields doctorId date dur cap endT (nid + 1) (current + dur) s hs'
      exact ⟨h1, h2, h3, by omega, h5, h6⟩
  · intro s hs
    simp at hs
termination_by _ current => endT - current
decreasing_by omega

lemma buildSlots_map_id (doctorId : Nat) (date : String) (dur cap endT : Nat) :
    ∀ (nid current : Nat),
      (buildSlots doctorId date dur cap endT nid current).map Slot.id
        = List.range' nid (buildSlots doctorId date dur cap endT nid current).length := by
  intro nid current
  rw [buildSlots_step]
  split
  · rename_i h
    simp only [List.map_cons, List.length_cons, List.range'_succ]
    rw [buildSlots_map_id doctorId date dur cap endT (nid + 1) (current + dur)]
  · simp
termination_by _ current => endT - current
decreasing_by omega

lemma buildSlots_id_bound {doctorId : Nat} {date : String} {dur cap endT nid current : Nat}
    {s : Slot} (hs : s ∈ buildSlots doctorId date dur cap endT nid current) :
    nid ≤ s.id ∧ s.id < nid + (buildSlots doctorId date dur cap endT nid current).length := by
  have hmap := buildSlots_map_id doctorId date dur cap endT nid current
  have : s.id ∈ (buildSlots doctorId date dur cap endT nid current).map Slot.id :=
    List.mem_map_of_mem Slot.id hs
  rw [hmap, List.mem_range'_1] at this
  omega

lemma buildSlots_ids_nodup (doctorId : Nat) (date : String) (dur cap endT nid current : Nat) :
    ((buildSlots doctorId date dur cap endT nid current).map Slot.id).Nodup := by
  rw [buildSlots_map_id]
  exact List.nodup_range' _ _

lemma buildSlots_length (doctorId : Nat) (date : String) (dur cap endT : Nat) (hdur : 0 < dur) :
    ∀ (nid current : Nat),
      (buildSlots doctorId date dur cap endT nid current).length
        = (endT - current + dur - 1) / dur := by
  intro nid current
  rw [buildSlots_step]
  split
  · rename_i h
    simp only [List.length_cons]
    rw [buildSlots_length doctorId date dur cap endT hdur (nid + 1) (current + dur)]
    rcases le_or_lt endT (current + dur) with h2 | h2
    · have e1 : endT - (current + dur) = 0 := by omega
      have e2 : endT - current + dur - 1 = (endT - current - 1) + dur := by omega
      rw [e1, e2, Nat.zero_add]
      rw [Nat.div_eq_of_lt (by omega), Nat.add_div_right _ hdur,
        Nat.div_eq_of_lt (by omega)]
    · have e2 : endT - current + dur - 1 = (endT - (current + dur) + dur - 1) + dur := by omega
      rw [e2, Nat.add_div_right _ hdur]
  · rename_i h
    have : endT ≤ current := by omega
    have e : endT - current + dur - 1 = dur - 1 := by omega
    rw [List.length_nil, e, Nat.div_eq_of_lt (by omega)]
termination_by _ current => endT - current
decreasing_by omega

lemma buildSlots_empty_of_ge {doctorId : Nat} {date : String} {dur cap endT nid current : Nat}
    (h : endT ≤ current) : buildSlots doctorId date dur cap endT nid current = [] := by
  rw [buildSlots_step]
  rw [if_neg (by omega)]

/-! ### generateSlotsForDay lemmas and invariant preservation -/

lemma generateSlotsForDay_eq (db : DB) (doctor : Doctor) (date : String) :
    generateSlotsForDay db doctor date =
      if (db.slots.filter (fun s => decide (s.doctorId = doctor.id ∧ s.date = date))).length > 0
      then (db.slots.filter (fun s => decide (s.doctorId = doctor.id ∧ s.date = date)), db)
      else
        (buildSlots doctor.id date doctor.slotDurationMinutes doctor.maxPatientsPerSlot
            doctor.endTime db.nextId doctor.startTime,
          { db with
            slots := db.slots ++ buildSlots doctor.id date doctor.slotDurationMinutes
              doctor.maxPatientsPerSlot doctor.endTime db.nextId doctor.startTime,
            nextId := db.nextId + (buildSlots doctor.id date doctor.slotDurationMinutes
              doctor.maxPatientsPerSlot doctor.endTime db.nextId doctor.startTime).length }) := rfl

lemma generateSlotsForDay_tokens (db : DB) (doctor : Doctor) (date : String) :
    ((generateSlotsForDay db doctor date).2).tokens = db.tokens := by
  rw [generateSlotsForDay_eq]
  split <;> rfl

lemma generateSlotsForDay_doctors (db : DB) (doctor : Doctor) (date : String) :
    ((generateSlotsForDay db doctor date).2).doctors = db.doctors := by
  rw [generateSlotsForDay_eq]
  split <;> rfl

lemma slot_eq_of_id_eq {l : List Slot} (h : (l.map Slot.id).Nodup)
    {a b : Slot} (ha : a ∈ l) (hb : b ∈ l) (hid : a.id = b.id) : a = b := by
  induction l with
  | nil => simp at ha
  | cons x xs ih =>
    rw [List.map_cons, List.nodup_cons] at h
    rcases List.mem_cons.mp ha with rfl | ha' <;> rcases List.mem_cons.mp hb with rfl | hb'
    · rfl
    · exact absurd (by rw [hid]; exact List.mem_map_of_mem Slot.id hb') h.1
    · exact absurd (by rw [← hid]; exact List.mem_map_of_mem Slot.id ha') h.1
    · exact ih h.2 ha' hb'

lemma storeInv_generateSlotsForDay (db : DB) (doctor : Doctor) (date : String)
    (h : StoreInv db) : StoreInv (generateSlotsForDay db doctor date).2 := by
  obtain ⟨hsn, htn, hsl, htl, hdw, hcap⟩ := h
  rw [generateSlotsForDay_eq]
  split
  · exact ⟨hsn, htn, hsl, htl, hdw, hcap⟩
  · dsimp only
    refine ⟨?_, htn, ?_, ?_, hdw, ?_⟩
    · rw [List.map_append, List.nodup_append]
      refine ⟨hsn, buildSlots_ids_nodup _ _ _ _ _ _ _, ?_⟩
      intro a ha hb
      obtain ⟨s, hs, rfl⟩ := List.mem_map.mp ha
      obtain ⟨s', hs', hss'⟩ := List.mem_map.mp hb
      have h1 := hsl s hs
      have h2 := (buildSlots_id_bound hs').1
      omega
    · intro s hs
      dsimp only at hs ⊢
      rcases List.mem_append.mp hs with hs' | hs'
      · have := hsl s hs'
        omega
      · have := buildSlots_id_bound hs'
        omega
    · intro t ht
      dsimp only at ht ⊢
      have := htl t ht
      omega
    · intro s hs
      dsimp only at hs ⊢
      rcases List.mem_append.mp hs with hs' | hs'
      · exact hcap s hs'
      · have hge : db.nextId ≤ s.id := (buildSlots_id_bound hs').1
        have : countSched db.tokens s.id = 0 :=
          countSched_eq_zero_of_lt db.tokens db.nextId s.id (fun t ht => (htl t ht).2) hge
        omega

lemma storeInv_createTokenInSlot (db : DB) (did : Nat) (date pn src : String) (prio : Nat)
    (slot : Slot) (h : StoreInv db) (hslot : slot ∈ db.slots)
    (hfree : countSched db.tokens slot.id < slot.capacity) :
    StoreInv (createTokenInSlot db did date pn src prio slot).2 := by
  obtain ⟨hsn, htn, hsl, htl, hdw, hcap⟩ := h
  refine ⟨hsn, ?_, ?_, ?_, hdw, ?_⟩
  · rw [createTokenInSlot]
    simp only [List.map_append, List.map_cons, List.map_nil]
    rw [List.nodup_append]
    refine ⟨htn, List.nodup_singleton _, ?_⟩
    intro a ha hb
    obtain ⟨t, ht, rfl⟩ := List.mem_map.mp ha
    have h1 := (htl t ht).1
    simp at hb
    omega
  · intro s hs
    have := hsl s hs
    simp only [createTokenInSlot]
    omega
  · intro t ht
    simp only [createTokenInSlot] at ht ⊢
    rcases List.mem_append.mp ht with ht' | ht'
    · have := htl t ht'
      omega
    · have hs := hsl slot hslot
      simp at ht'
      subst ht'
      simp
      omega
  · intro s hs
    simp only [createTokenInSlot] at hs ⊢
    rw [countSched_append, countSched_singleton]
    by_cases hid : slot.id = s.id
    · have : s = slot := slot_eq_of_id_eq hsn hs hslot (by omega)
      subst this
      simp [schedFlag]
      omega
    · have : schedFlag
          { id := db.nextId, doctorId := did, slotId := slot.id, date := date,
            patientName := pn, source := src, priorityScore := prio,
            status := TokenStatus.SCHEDULED } s.id = 0 := by
        simp [schedFlag, hid]
      rw [this]
      have := hcap s hs
      omega

lemma storeInv_createDoctor (db : DB) (name : String) (st et dur cap : Nat)
    (h : StoreInv db) (hdur : 0 < dur) (hcap : 0 < cap) :
    StoreInv (createDoctor db name st et dur cap).2 := by
  obtain ⟨hsn, htn, hsl, htl, hdw, hc⟩ := h
  refine ⟨hsn, htn, ?_, ?_, ?_, hc⟩
  · intro s hs
    have := hsl s hs
    simp only [createDoctor]
    omega
  · intro t ht
    have := htl t ht
    simp only [createDoctor]
    omega
  · intro d hd
    simp only [createDoctor] at hd
    rcases List.mem_append.mp hd with hd' | hd'
    · exact hdw d hd'
    · simp at hd'
      subst hd'
      exact ⟨hdur, hcap⟩

/-! ### Pass-1 scan and the emergency pass -/

lemma findFirstFreeSlot_eq_none {db : DB} :
    ∀ {l : List Slot}, findFirstFreeSlot db l = none ↔
      ∀ s ∈ l, ¬ countSched db.tokens s.id < s.capacity := by
  intro l
  induction l with
  | nil => simp [findFirstFreeSlot]
  | cons s rest ih =>
    by_cases h : (getTokensForSlot db s.id).length < s.capacity
    · simp only [findFirstFreeSlot, if_pos h]
      rw [length_getTokensForSlot] at h
      simp only [List.mem_cons]
      constructor
      · intro hc
        exact absurd hc (by simp)
      · intro hall
        exact absurd h (hall s (Or.inl rfl))
    · simp only [findFirstFreeSlot, if_neg h, ih]
      rw [length_getTokensForSlot] at h
      constructor
      · intro hall s' hs'
        rcases List.mem_cons.mp hs' with rfl | hm
        · exact h
        · exact hall s' hm
      · intro hall s' hs'
        exact hall s' (List.mem_cons_of_mem s hs')

lemma findFirstFreeSlot_eq_some {db : DB} :
    ∀ {l : List Slot} {s : Slot}, findFirstFreeSlot db l = some s →
      s ∈ l ∧ countSched db.tokens s.id < s.capacity ∧
      ∃ l₁ l₂, l = l₁ ++ s :: l₂ ∧ ∀ u ∈ l₁, ¬ countSched db.tokens u.id < u.capacity := by
  intro l
  induction l with
  | nil => intro s hs; simp [findFirstFreeSlot] at hs
  | cons a rest ih =>
    intro s hs
    by_cases h : (getTokensForSlot db a.id).length < a.capacity
    · simp only [findFirstFreeSlot, if_pos h, Option.some.injEq] at hs
      subst hs
      rw [length_getTokensForSlot] at h
      exact ⟨List.mem_cons_self _ _, h, [], rest, rfl, by simp⟩
    · simp only [findFirstFreeSlot, if_neg h] at hs
      obtain ⟨hmem, hcnt, l₁, l₂, hdec, hfull⟩ := ih hs
      rw [length_getTokensForSlot] at h
      refine ⟨List.mem_cons_of_mem a hmem, hcnt, a :: l₁, l₂, by rw [hdec]; rfl, ?_⟩
      intro u hu
      rcases List.mem_cons.mp hu with rfl | hm
      · exact h
      · exact hfull u hm

/-- The displacement pass of `allocateToken` is unreachable as a success
path: whenever every slot of the scanned list is at capacity — which is
exactly the situation in which `allocateToken` enters it, pass 1 having
failed — it returns the NoCapacity signal and leaves the store untouched.
The inner search for a later slot with free capacity can never succeed,
because no slot of the day has free capacity at all. -/
lemma emergencyLoop_of_full (db : DB) (did : Nat) (date pn src : String) (prio : Nat) :
    ∀ (l : List Slot), (∀ s ∈ l, ¬ countSched db.tokens s.id < s.capacity) →
      emergencyLoop db did date pn src prio l = (AllocResult.noCapacity, db) := by
  intro l
  induction l with
  | nil => intro _; rfl
  | cons slot rest ih =>
    intro h
    have hfull : ¬ (getTokensForSlot db slot.id).length < slot.capacity := by
      rw [length_getTokensForSlot]
      exact h slot (List.mem_cons_self _ _)
    have hrest : ∀ s ∈ rest, ¬ countSched db.tokens s.id < s.capacity :=
      fun s hs => h s (List.mem_cons_of_mem slot hs)
    have hnone : findFirstFreeSlot db rest = none := findFirstFreeSlot_eq_none.mpr hrest
    simp only [emergencyLoop, if_neg hfull]
    cases hL : (getTokensForSlot db slot.id).getLast? with
    | none => simpa [hL] using ih hrest
    | some lowest =>
      by_cases hp : prio ≤ lowest.priorityScore
      · simp [hL, hp, ih hrest]
      · simp [hL, hp, hnone, ih hrest]

/-- Case analysis of `allocateToken`: invalid source, unknown doctor,
fully-booked NoCapacity (in which case the store is the post-`ensureSlots`
store unchanged — in particular the emergency pass never commits anything,
by `emergencyLoop_of_full`), or pass-1 creation in the first free slot. -/
lemma allocateToken_shape (db : DB) (did : Nat) (date src pn : String) (em : Bool) :
    (tokenSources.contains (if em then "EMERGENCY" else src) = false ∧
       allocateToken db did date src pn em = (AllocResult.invalidSource, db)) ∨
    (tokenSources.contains (if em then "EMERGENCY" else src) = true ∧
       getDoctorById db did = none ∧
       allocateToken db did date src pn em = (AllocResult.doctorNotFound, db)) ∨
    (∃ doctor, tokenSources.contains (if em then "EMERGENCY" else src) = true ∧
       getDoctorById db did = some doctor ∧
       allocateToken db did date src pn em =
         (AllocResult.noCapacity, (generateSlotsForDay db doctor date).2) ∧
       findFirstFreeSlot (generateSlotsForDay db doctor date).2
         (getSlotsForDoctorDay (generateSlotsForDay db doctor date).2 did date) = none) ∨
    (∃ doctor slot, tokenSources.contains (if em then "EMERGENCY" else src) = true ∧
       getDoctorById db did = some doctor ∧
       findFirstFreeSlot (generateSlotsForDay db doctor date).2
         (getSlotsForDoctorDay (generateSlotsForDay db doctor date).2 did date) = some slot ∧
       allocateToken db did date src pn em =
         createTokenInSlot (generateSlotsForDay db doctor date).2 did date pn
           (if em then "EMERGENCY" else src)
           (getPriorityScore (if em then "EMERGENCY" else src)) slot) := by
  by_cases hsrc : tokenSources.contains (if em then "EMERGENCY" else src) = true
  · have hmem : (if em = true then "EMERGENCY" else src) ∈ tokenSources := by
      simpa using hsrc
    cases hdoc : getDoctorById db did with
    | none =>
      refine Or.inr (Or.inl ⟨hsrc, rfl, ?_⟩)
      simp [allocateToken, hmem, hdoc]
    | some doctor =>
      cases hfind : findFirstFreeSlot (generateSlotsForDay db doctor date).2
          (getSlotsForDoctorDay (generateSlotsForDay db doctor date).2 did date) with
      | none =>
        refine Or.inr (Or.inr (Or.inl ⟨doctor, hsrc, rfl, ?_, hfind⟩))
        have hfull := findFirstFreeSlot_eq_none.mp hfind
        simp only [allocateToken, hsrc, if_true, hdoc, hfind]
        cases em with
        | false => simp
        | true =>
          simp only [if_true]
          exact emergencyLoop_of_full _ _ _ _ _ _ _ hfull
      | some slot =>
        refine Or.inr (Or.inr (Or.inr ⟨doctor, slot, hsrc, rfl, hfind, ?_⟩))
        simp [allocateToken, hmem, hdoc, hfind]
  · have hsrc' : tokenSources.contains (if em then "EMERGENCY" else src) = false := by
      simpa using hsrc
    have hnotmem : (if em = true then "EMERGENCY" else src) ∉ tokenSources := by
      simpa using hsrc
    refine Or.inl ⟨hsrc', ?_⟩
    simp [allocateToken, hnotmem]

lemma createTokenInSlot_eq (db : DB) (did : Nat) (date pn src : String) (prio : Nat)
    (slot : Slot) :
    createTokenInSlot db did date pn src prio slot =
      (AllocResult.token
        { id := db.nextId, doctorId := did, slotId := slot.id, date := date,
          patientName := pn, source := src, priorityScore := prio,
          status := TokenStatus.SCHEDULED },
        { db with
          tokens := db.tokens ++
            [{ id := db.nextId, doctorId := did, slotId := slot.id, date := date,
               patientName := pn, source := src, priorityScore := prio,
               status := TokenStatus.SCHEDULED }],
          nextId := db.nextId + 1 }) := rfl

lemma allocateToken_tokens_shape (db : DB) (did : Nat) (date src pn : String) (em : Bool) :
    ((allocateToken db did date src pn em).2.tokens = db.tokens ∧
      ∀ t, (allocateToken db did date src pn em).1 ≠ AllocResult.token t) ∨
    (∃ tok, (allocateToken db did date src pn em).1 = AllocResult.token tok ∧
      (allocateToken db did date src pn em).2.tokens = db.tokens ++ [tok] ∧
      tok.source = (if em then "EMERGENCY" else src) ∧
      tok.priorityScore = getPriorityScore (if em then "EMERGENCY" else src) ∧
      tok.status = TokenStatus.SCHEDULED) := by
  rcases allocateToken_shape db did date src pn em with
    ⟨_, h2⟩ | ⟨_, _, h2⟩ | ⟨doctor, _, _, h2, _⟩ | ⟨doctor, slot, _, _, _, h3⟩
  · left
    rw [h2]
    exact ⟨rfl, by simp⟩
  · left
    rw [h2]
    exact ⟨rfl, by simp⟩
  · left
    rw [h2]
    refine ⟨?_, by simp⟩
    exact generateSlotsForDay_tokens db doctor date
  · right
    rw [h3, createTokenInSlot_eq]
    refine ⟨_, rfl, ?_, rfl, rfl, rfl⟩
    dsimp only
    rw [generateSlotsForDay_tokens]

lemma storeInv_allocateToken (db : DB) (did : Nat) (date src pn : String) (em : Bool)
    (h : StoreInv db) : StoreInv (allocateToken db did date src pn em).2 := by
  rcases allocateToken_shape db did date src pn em with
    ⟨_, h2⟩ | ⟨_, _, h2⟩ | ⟨doctor, _, _, h2, _⟩ | ⟨doctor, slot, _, _, hfind, h3⟩
  · rw [h2]; exact h
  · rw [h2]; exact h
  · rw [h2]; exact storeInv_generateSlotsForDay db doctor date h
  · rw [h3]
    have hgen := storeInv_generateSlotsForDay db doctor date h
    obtain ⟨hmem, hfree, -⟩ := findFirstFreeSlot_eq_some hfind
    have hslot : slot ∈ (generateSlotsForDay db doctor date).2.slots :=
      (mem_getSlotsForDoctorDay.mp hmem).1
    exact storeInv_createTokenInSlot _ _ _ _ _ _ _ hgen hslot hfree

/-! ### Rebalance and cancellation preserve the invariant -/

lemma schedFlag_le_one (t : Token) (sid : Nat) : schedFlag t sid ≤ 1 := by
  unfold schedFlag
  split <;> omega

lemma storeInv_rebalanceLoop (db : DB) (fsid : Nat) (hinv : StoreInv db)
    (hfs : fsid < db.nextId)
    (hroom : ∀ s ∈ db.slots, s.id = fsid → countSched db.tokens fsid < s.capacity) :
    ∀ l : List Slot, StoreInv (rebalanceLoop db fsid l) := by
  intro l
  induction l with
  | nil => exact hinv
  | cons laterSlot rest ih =>
    cases hts : getTokensForSlot db laterSlot.id with
    | nil => simpa [rebalanceLoop, hts] using ih
    | cons candidate tail =>
      simp only [rebalanceLoop, hts]
      obtain ⟨hsn, htn, hsl, htl, hdw, hcap⟩ := hinv
      have hcand : candidate ∈ db.tokens ∧ candidate.slotId = laterSlot.id ∧
          candidate.status = TokenStatus.SCHEDULED := by
        refine mem_getTokensForSlot.mp ?_
        rw [hts]
        exact List.mem_cons_self _ _
      have hkey : ∀ sid, countSched (updateTokenById candidate.id
            (fun t => { t with slotId := fsid }) db.tokens) sid + schedFlag candidate sid
          = countSched db.tokens sid +
            schedFlag { candidate with slotId := fsid } sid :=
        fun sid => countSched_updateTokenById _ sid db.tokens htn candidate hcand.1
      refine ⟨hsn, ?_, hsl, ?_, hdw, ?_⟩
      · dsimp only
        rw [updateTokenById_map_id candidate.id (fun t => { t with slotId := fsid })
          (fun t => rfl)]
        exact htn
      · intro t ht
        dsimp only at ht ⊢
        rcases mem_updateTokenById ht with h1 | ⟨u, hu, rfl⟩
        · exact htl t h1
        · exact ⟨(htl u hu).1, hfs⟩
      · intro s hs
        dsimp only at hs ⊢
        have hk := hkey s.id
        have hf1 := schedFlag_le_one candidate s.id
        by_cases hid : s.id = fsid
        · have hr := hroom s hs hid
          rw [hid]
          rw [hid] at hk hf1
          have hflag : schedFlag { candidate with slotId := fsid } fsid = 1 := by
            simp [schedFlag, hcand.2.2]
          omega
        · have hflag : schedFlag { candidate with slotId := fsid } s.id = 0 := by
            simp [schedFlag]
            intro he
            exact absurd he.symm hid
          have hc := hcap s hs
          omega

lemma storeInv_rebalanceAfterFreeSlot (db : DB) (d : Nat) (dt : String) (fsid : Nat)
    (hinv : StoreInv db) (hfs : fsid < db.nextId)
    (hroom : ∀ s ∈ db.slots, s.id = fsid → countSched db.tokens fsid < s.capacity) :
    StoreInv (rebalanceAfterFreeSlot db d dt fsid) := by
  cases h : slotsAfterFreed fsid (getSlotsForDoctorDay db d dt) with
  | none => simpa [rebalanceAfterFreeSlot, h] using hinv
  | some rest =>
    have := storeInv_rebalanceLoop db fsid hinv hfs hroom rest
    simpa [rebalanceAfterFreeSlot, h] using this

lemma storeInv_setStatusRebalance (db : DB) (tid : Nat) (token : Token) (st : TokenStatus)
    (h : StoreInv db) (hfind : db.tokens.find? (fun t => decide (t.id = tid)) = some token)
    (hst : token.status = TokenStatus.SCHEDULED) (hne : st ≠ TokenStatus.SCHEDULED) :
    StoreInv (rebalanceAfterFreeSlot
      { db with tokens := updateTokenById tid (fun t => { t with status := st }) db.tokens }
      token.doctorId token.date token.slotId) := by
  have htid : token.id = tid := by simpa using List.find?_some hfind
  have htmem : token ∈ db.tokens := List.mem_of_find?_eq_some hfind
  obtain ⟨hsn, htn, hsl, htl, hdw, hcap⟩ := h
  have hkey : ∀ sid, countSched (updateTokenById tid
        (fun t => { t with status := st }) db.tokens) sid + schedFlag token sid
      = countSched db.tokens sid + schedFlag { token with status := st } sid := by
    intro sid
    rw [← htid]
    exact countSched_updateTokenById _ sid db.tokens htn token htmem
  have hflag0 : ∀ sid, schedFlag { token with status := st } sid = 0 := by
    intro sid
    simp [schedFlag, hne]
  have hinv1 : StoreInv
      { db with tokens := updateTokenById tid (fun t => { t with status := st }) db.tokens } := by
    refine ⟨hsn, ?_, hsl, ?_, hdw, ?_⟩
    · dsimp only
      rw [updateTokenById_map_id tid (fun t => { t with status := st }) (fun t => rfl)]
      exact htn
    · intro t ht
      dsimp only at ht ⊢
      rcases mem_updateTokenById ht with h1 | ⟨u, hu, rfl⟩
      · exact htl t h1
      · exact ⟨(htl u hu).1, (htl u hu).2⟩
    · intro s hs
      dsimp only at hs ⊢
      have hk := hkey s.id
      have := hcap s hs
      rw [hflag0 s.id] at hk
      omega
  refine storeInv_rebalanceAfterFreeSlot _ _ _ _ hinv1 ?_ ?_
  · exact (htl token htmem).2
  · intro s hs hid
    dsimp only at hs ⊢
    have hk := hkey token.slotId
    rw [hflag0 token.slotId] at hk
    have hflag1 : schedFlag token token.slotId = 1 := by
      simp [schedFlag, hst]
    have hc := hcap s hs
    rw [hid] at hc
    omega

lemma storeInv_cancelToken (db : DB) (tid : Nat) (h : StoreInv db) :
    StoreInv (cancelToken db tid).2 := by
  cases hfind : db.tokens.find? (fun t => decide (t.id = tid)) with
  | none => simpa [cancelToken, hfind] using h
  | some token =>
    by_cases hst : token.status = TokenStatus.SCHEDULED
    · have := storeInv_setStatusRebalance db tid token TokenStatus.CANCELLED h hfind hst
        (by simp)
      simpa [cancelToken, hfind, hst] using this
    · simpa [cancelToken, hfind, hst] using h

lemma storeInv_markNoShow (db : DB) (tid : Nat) (h : StoreInv db) :
    StoreInv (markNoShow db tid).2 := by
  cases hfind : db.tokens.find? (fun t => decide (t.id = tid)) with
  | none => simpa [markNoShow, hfind] using h
  | some token =>
    by_cases hst : token.status = TokenStatus.SCHEDULED
    · have := storeInv_setStatusRebalance db tid token TokenStatus.NO_SHOW h hfind hst
        (by simp)
      simpa [markNoShow, hfind, hst] using this
    · simpa [markNoShow, hfind, hst] using h

/-! ### The reachable-state invariant -/

lemma storeInv_empty : StoreInv emptyDB := by
  refine ⟨?_, ?_, ?_, ?_, ?_, ?_⟩ <;> simp [emptyDB, StoreInv]

lemma storeInv_step {db db' : DB} (h : StoreInv db) (hs : Step db db') : StoreInv db' := by
  cases hs with
  | createDoctor name st et dur cap hdur hcap =>
    exact storeInv_createDoctor db name st et dur cap h hdur hcap
  | allocate did date src pn em => exact storeInv_allocateToken db did date src pn em h
  | cancel tid => exact storeInv_cancelToken db tid h
  | noShow tid => exact storeInv_markNoShow db tid h
  | genSlots doctor date => exact storeInv_generateSlotsForDay db doctor date h
  | readSchedule did date => exact h

lemma storeInv_reachable {db : DB} (h : Reachable db) : StoreInv db := by
  induction h with
  | empty => exact storeInv_empty
  | step _ hs ih => exact storeInv_step ih hs

/-! ### Claim C1 -/

/-- Claim C1: capacity invariant.  In every store reachable from the empty
store via the public operations (allocateToken, cancelToken, markNoShow,
getSchedule, generateSlotsForDay, plus the host's doctor creation), every
slot has at most `capacity` SCHEDULED tokens referencing it; in particular
neither the emergency path of `allocateToken` nor the rebalance move of
`rebalanceAfterFreeSlot` ever pushes a slot's SCHEDULED count above its
capacity. -/
theorem claim1_capacity_invariant (db : DB) (h : Reachable db) :
    ∀ s ∈ db.slots, countSched db.tokens s.id ≤ s.capacity := by
  obtain ⟨-, -, -, -, -, hcap⟩ := storeInv_reachable h
  exact hcap

/-- A small reachable store: one doctor, one walk-in booking (slots 1 and 2
are generated on demand, the token lands in slot 1). -/
def exampleDB : DB :=
  (allocateToken (createDoctor emptyDB "Dr" 540 570 15 1).2 0 "2025-01-01" "WALK_IN" "Pat" false).2

theorem claim1_capacity_invariant_witness : countSched exampleDB.tokens 1 ≤ 1 := by
  have hreach : Reachable exampleDB :=
    Reachable.step
      (Reachable.step Reachable.empty
        (Step.createDoctor emptyDB "Dr" 540 570 15 1 (by decide) (by decide)))
      (Step.allocate (createDoctor emptyDB "Dr" 540 570 15 1).2 0 "2025-01-01" "WALK_IN"
        "Pat" false)
  exact claim1_capacity_invariant exampleDB hreach
    { id := 1, doctorId := 0, date := "2025-01-01", startTime := 540, endTime := 555,
      capacity := 1 } (by decide)

/-! ### Claim C7 -/

lemma filter_buildSlots_self (doctorId : Nat) (date : String) (dur cap endT nid current : Nat) :
    (buildSlots doctorId date dur cap endT nid current).filter
        (fun s => decide (s.doctorId = doctorId ∧ s.date = date))
      = buildSlots doctorId date dur cap endT nid current := by
  apply List.filter_eq_self.mpr
  intro s hs
  obtain ⟨h1, h2, -⟩ := buildSlots_fields doctorId date dur cap endT nid current s hs
  simp [h1, h2]

lemma generateSlotsForDay_post_filter (db : DB) (doctor : Doctor) (date : String) :
    ((generateSlotsForDay db doctor date).2.slots.filter
        (fun s => decide (s.doctorId = doctor.id ∧ s.date = date)))
      = (generateSlotsForDay db doctor date).1 := by
  rw [generateSlotsForDay_eq]
  by_cases hlen :
      (db.slots.filter (fun s => decide (s.doctorId = doctor.id ∧ s.date = date))).length > 0
  · rw [if_pos hlen]
  · rw [if_neg hlen]
    dsimp only
    rw [List.filter_append]
    have hempty :
        db.slots.filter (fun s => decide (s.doctorId = doctor.id ∧ s.date = date)) = [] := by
      rw [← List.length_eq_zero]
      omega
    rw [hempty, filter_buildSlots_self, List.nil_append]

lemma generateSlotsForDay_idem (db : DB) (doctor : Doctor) (date : String) :
    generateSlotsForDay (generateSlotsForDay db doctor date).2 doctor date
      = ((generateSlotsForDay db doctor date).1, (generateSlotsForDay db doctor date).2) := by
  have hpf := generateSlotsForDay_post_filter db doctor date
  by_cases h1 : 0 < (generateSlotsForDay db doctor date).1.length
  · conv_lhs => rw [generateSlotsForDay_eq]
    rw [if_pos (by rw [hpf]; exact h1), hpf]
  · have h1' : (generateSlotsForDay db doctor date).1 = [] := by
      rw [← List.length_eq_zero]
      omega
    have hflt :
        db.slots.filter (fun s => decide (s.doctorId = doctor.id ∧ s.date = date)) = [] := by
      by_cases hlen :
          (db.slots.filter (fun s => decide (s.doctorId = doctor.id ∧ s.date = date))).length > 0
      · exfalso
        have : (generateSlotsForDay db doctor date).1
            = db.slots.filter (fun s => decide (s.doctorId = doctor.id ∧ s.date = date)) := by
          rw [generateSlotsForDay_eq, if_pos hlen]
        rw [this] at h1'
        rw [h1'] at hlen
        simp at hlen
      · rw [← List.length_eq_zero]
        omega
    have hbs : buildSlots doctor.id date doctor.slotDurationMinutes doctor.maxPatientsPerSlot
        doctor.endTime db.nextId doctor.startTime = [] := by
      have : (generateSlotsForDay db doctor date).1
          = buildSlots doctor.id date doctor.slotDurationMinutes doctor.maxPatientsPerSlot
              doctor.endTime db.nextId doctor.startTime := by
        rw [generateSlotsForDay_eq, if_neg (by rw [hflt]; simp)]
      rw [← this, h1']
    have hsnd : (generateSlotsForDay db doctor date).2 = db := by
      rw [generateSlotsForDay_eq, if_neg (by rw [hflt]; simp)]
      dsimp only
      rw [hbs]
      cases db
      simp
    rw [hsnd, h1']
    exact Prod.ext h1' hsnd

/-- Claim C7: idempotent slot generation.  If slots already exist for
(doctor.id, date) then `generateSlotsForDay` returns exactly those slots
and leaves the store untouched; consequently calling it twice for the same
(doctor, date) returns the same slot list (same ids, same count) and the
same store as calling it once. -/
theorem claim7_idempotent_generation (db : DB) (doctor : Doctor) (date : String) :
    (db.slots.filter (fun s => decide (s.doctorId = doctor.id ∧ s.date = date)) ≠ [] →
      generateSlotsForDay db doctor date =
        (db.slots.filter (fun s => decide (s.doctorId = doctor.id ∧ s.date = date)), db)) ∧
    generateSlotsForDay (generateSlotsForDay db doctor date).2 doctor date
      = ((generateSlotsForDay db doctor date).1, (generateSlotsForDay db doctor date).2) := by
  constructor
  · intro hne
    rw [generateSlotsForDay_eq, if_pos (by simpa [List.length_pos] using hne)]
  · exact generateSlotsForDay_idem db doctor date

theorem claim7_idempotent_generation_witness :
    generateSlotsForDay (generateSlotsForDay exampleDB
        { id := 0, name := "Dr", startTime := 540, endTime := 570,
          slotDurationMinutes := 15, maxPatientsPerSlot := 1 } "2025-01-01").2
        { id := 0, name := "Dr", startTime := 540, endTime := 570,
          slotDurationMinutes := 15, maxPatientsPerSlot := 1 } "2025-01-01"
      = ((generateSlotsForDay exampleDB
          { id := 0, name := "Dr", startTime := 540, endTime := 570,
            slotDurationMinutes := 15, maxPatientsPerSlot := 1 } "2025-01-01").1,
         (generateSlotsForDay exampleDB
          { id := 0, name := "Dr", startTime := 540, endTime := 570,
            slotDurationMinutes := 15, maxPatientsPerSlot := 1 } "2025-01-01").2) :=
  (claim7_idempotent_generation exampleDB
    { id := 0, name := "Dr", startTime := 540, endTime := 570,
      slotDurationMinutes := 15, maxPatientsPerSlot := 1 } "2025-01-01").2

/-! ### Claim C10 -/

/-- Claim C10: termination of slot generation.  For a doctor with
`slotDurationMinutes ≥ 1`, first-time generation (no slots stored yet for
the doctor and date) terminates with exactly
`⌈(endTime - startTime) / slotDurationMinutes⌉` slots — computed as
`(endTime - startTime + dur - 1) / dur` — and produces the empty sequence
when `startTime ≥ endTime`; the embedding is a total function. -/
theorem claim10_generation_terminates (db : DB) (doctor : Doctor) (date : String)
    (hdur : 0 < doctor.slotDurationMinutes)
    (hfresh : db.slots.filter (fun s => decide (s.doctorId = doctor.id ∧ s.date = date)) = []) :
    (generateSlotsForDay db doctor date).1.length
        = (doctor.endTime - doctor.startTime + doctor.slotDurationMinutes - 1) /
            doctor.slotDurationMinutes ∧
    (doctor.endTime ≤ doctor.startTime → (generateSlotsForDay db doctor date).1 = []) := by
  rw [generateSlotsForDay_eq, if_neg (by rw [hfresh]; simp)]
  dsimp only
  exact ⟨buildSlots_length doctor.id date doctor.slotDurationMinutes doctor.maxPatientsPerSlot
      doctor.endTime hdur db.nextId doctor.startTime,
    fun h => buildSlots_empty_of_ge h⟩

theorem claim10_generation_terminates_witness :
    (generateSlotsForDay emptyDB
        { id := 7, name := "Dr", startTime := 540, endTime := 570,
          slotDurationMinutes := 20, maxPatientsPerSlot := 2 } "2025-01-02").1.length = 2 := by
  have := claim10_generation_terminates emptyDB
    { id := 7, name := "Dr", startTime := 540, endTime := 570,
      slotDurationMinutes := 20, maxPatientsPerSlot := 2 } "2025-01-02"
    (by decide) (by decide)
  exact this.1

/-! ### Claim C2 -/

/-- Counterexample to claim C2 as stated: with working window
09:00-09:30 (540-570 minutes) and 20-minute slots, first-time generation
emits two full-length slots ending at 09:20 and 09:40, and the second
slot's end 09:40 lies strictly beyond the doctor's endTime 09:30 — a
generated slot does not lie entirely within `[startTime, endTime)`. -/
theorem claim2_counterexample :
    ((generateSlotsForDay emptyDB
        { id := 0, name := "D", startTime := 540, endTime := 570,
          slotDurationMinutes := 20, maxPatientsPerSlot := 1 } "2025-01-06").1.map Slot.endTime
      = [560, 580]) ∧
    ¬ (∀ s ∈ (generateSlotsForDay emptyDB
        { id := 0, name := "D", startTime := 540, endTime := 570,
          slotDurationMinutes := 20, maxPatientsPerSlot := 1 } "2025-01-06").1,
        s.endTime ≤ 570) := by decide

/-- Claim C2 (amended): first-time slot generation stops as soon as the
cursor reaches or passes `endTime`, and never emits a partial slot: every
generated slot starts within `[startTime, endTime)` and has exactly the
nominal duration.  Consequently the last slot's end may exceed `endTime`
(by less than one slot duration) when the duration does not divide the
window — it is a full-length slot poking past `endTime`, not a trimmed
one. -/
theorem claim2_no_partial_slot (db : DB) (doctor : Doctor) (date : String)
    (hfresh : db.slots.filter (fun s => decide (s.doctorId = doctor.id ∧ s.date = date)) = []) :
    ∀ s ∈ (generateSlotsForDay db doctor date).1,
      doctor.startTime ≤ s.startTime ∧ s.startTime < doctor.endTime ∧
      s.endTime = s.startTime + doctor.slotDurationMinutes ∧
      s.endTime < doctor.endTime + doctor.slotDurationMinutes := by
  rw [generateSlotsForDay_eq, if_neg (by rw [hfresh]; simp)]
  dsimp only
  intro s hs
  obtain ⟨-, -, -, h4, h5, h6⟩ := buildSlots_fields doctor.id date doctor.slotDurationMinutes
    doctor.maxPatientsPerSlot doctor.endTime db.nextId doctor.startTime s hs
  exact ⟨h4, h5, h6, by omega⟩

theorem claim2_no_partial_slot_witness :
    540 ≤ 560 ∧ 560 < 570 ∧ 580 = 560 + 20 ∧ 580 < 570 + 20 := by
  refine claim2_no_partial_slot emptyDB
    { id := 0, name := "D", startTime := 540, endTime := 570,
      slotDurationMinutes := 20, maxPatientsPerSlot := 1 } "2025-01-06" (by decide)
    { id := 1, doctorId := 0, date := "2025-01-06", startTime := 560, endTime := 580,
      capacity := 1 } (by decide)

/-! ### Claim C8 -/

lemma token_eq_of_id_eq {l : List Token} (h : (l.map Token.id).Nodup)
    {a b : Token} (ha : a ∈ l) (hb : b ∈ l) (hid : a.id = b.id) : a = b := by
  induction l with
  | nil => simp at ha
  | cons x xs ih =>
    rw [List.map_cons, List.nodup_cons] at h
    rcases List.mem_cons.mp ha with rfl | ha' <;> rcases List.mem_cons.mp hb with rfl | hb'
    · rfl
    · exact absurd (by rw [hid]; exact List.mem_map_of_mem Token.id hb') h.1
    · exact absurd (by rw [← hid]; exact List.mem_map_of_mem Token.id ha') h.1
    · exact ih h.2 ha' hb'

/-- Claim C8: terminal status immutability.  `cancelToken` and
`markNoShow` return the not-found/not-cancellable signal (`none`) exactly
when no stored token both carries the requested id and is SCHEDULED — in
particular for a token already CANCELLED or NO_SHOW — and in that case the
store is left completely unchanged. -/
theorem claim8_terminal_status_immutable (db : DB) (tid : Nat)
    (hnd : (db.tokens.map Token.id).Nodup) :
    ((cancelToken db tid).1 = none ↔
      ¬ ∃ t ∈ db.tokens, t.id = tid ∧ t.status = TokenStatus.SCHEDULED) ∧
    ((cancelToken db tid).1 = none → (cancelToken db tid).2 = db) ∧
    ((markNoShow db tid).1 = none ↔
      ¬ ∃ t ∈ db.tokens, t.id = tid ∧ t.status = TokenStatus.SCHEDULED) ∧
    ((markNoShow db tid).1 = none → (markNoShow db tid).2 = db) := by
  cases hfind : db.tokens.find? (fun t => decide (t.id = tid)) with
  | none =>
    have hnone : ∀ t ∈ db.tokens, t.id ≠ tid := by
      intro t ht
      have := List.find?_eq_none.mp hfind t ht
      simpa using this
    have hno : ¬ ∃ t ∈ db.tokens, t.id = tid ∧ t.status = TokenStatus.SCHEDULED := by
      rintro ⟨t, ht, h1, -⟩
      exact hnone t ht h1
    refine ⟨iff_of_true (by simp [cancelToken, hfind]) hno, ?_,
      iff_of_true (by simp [markNoShow, hfind]) hno, ?_⟩
    · intro _
      simp [cancelToken, hfind]
    · intro _
      simp [markNoShow, hfind]
  | some token =>
    have htid : token.id = tid := by simpa using List.find?_some hfind
    have hmem : token ∈ db.tokens := List.mem_of_find?_eq_some hfind
    by_cases hst : token.status = TokenStatus.SCHEDULED
    · have hex : ∃ t ∈ db.tokens, t.id = tid ∧ t.status = TokenStatus.SCHEDULED :=
        ⟨token, hmem, htid, hst⟩
      refine ⟨iff_of_false (by simp [cancelToken, hfind, hst]) (fun h => h hex), ?_,
        iff_of_false (by simp [markNoShow, hfind, hst]) (fun h => h hex), ?_⟩
      · intro h
        exact absurd h (by simp [cancelToken, hfind, hst])
      · intro h
        exact absurd h (by simp [markNoShow, hfind, hst])
    · have hno : ¬ ∃ t ∈ db.tokens, t.id = tid ∧ t.status = TokenStatus.SCHEDULED := by
        rintro ⟨t, ht, h1, h2⟩
        have : t = token := token_eq_of_id_eq hnd ht hmem (h1.trans htid.symm)
        subst this
        exact hst h2
      refine ⟨iff_of_true (by simp [cancelToken, hfind, hst]) hno, ?_,
        iff_of_true (by simp [markNoShow, hfind, hst]) hno, ?_⟩
      · intro _
        simp [cancelToken, hfind, hst]
      · intro _
        simp [markNoShow, hfind, hst]

/-- A store holding a single already-CANCELLED token with id 3. -/
def c8db : DB :=
  { doctors := [], slots := [],
    tokens := [{ id := 3, doctorId := 0, slotId := 1, date := "d", patientName := "p",
                 source := "WALK_IN", priorityScore := 1,
                 status := TokenStatus.CANCELLED }],
    nextId := 4 }

theorem claim8_terminal_status_immutable_witness :
    (cancelToken c8db 3).2 = c8db ∧ (markNoShow c8db 3).2 = c8db := by
  have h := claim8_terminal_status_immutable c8db 3 (by decide)
  exact ⟨h.2.1 (by decide), h.2.2.2 (by decide)⟩

/-! ### Claim C9 -/

/-- Claim C9: emergency source override.  A request with `emergency = true`
is never rejected as InvalidSource whatever `source` holds, any token it
creates records source EMERGENCY with priority score 5, while a
non-emergency request with a source outside the configured set is rejected
as InvalidSource with the store unchanged. -/
theorem claim9_emergency_override (db : DB) (did : Nat) (date src pn : String) :
    ((allocateToken db did date src pn true).1 ≠ AllocResult.invalidSource ∧
      ∀ t, (allocateToken db did date src pn true).1 = AllocResult.token t →
        t.source = "EMERGENCY" ∧ t.priorityScore = 5) ∧
    (tokenSources.contains src = false →
      allocateToken db did date src pn false = (AllocResult.invalidSource, db)) := by
  refine ⟨⟨?_, ?_⟩, ?_⟩
  · rcases allocateToken_shape db did date src pn true with
      ⟨h1, h2⟩ | ⟨h1, _, h2⟩ | ⟨d, h1, _, h2, _⟩ | ⟨d, sl, h1, _, _, h3⟩
    · exfalso
      simp only [if_true] at h1
      exact absurd h1 (by decide)
    · rw [h2]
      simp
    · rw [h2]
      simp
    · rw [h3, createTokenInSlot_eq]
      simp
  · intro t ht
    rcases allocateToken_tokens_shape db did date src pn true with ⟨h1, h2⟩ | ⟨tok, h1, _, h3, h4, _⟩
    · exact absurd ht (h2 t)
    · have : tok = t := AllocResult.token.inj (h1.symm.trans ht)
      subst this
      exact ⟨by simpa using h3, by simpa using h4⟩
  · intro hsrc
    rcases allocateToken_shape db did date src pn false with
      ⟨h1, h2⟩ | ⟨h1, _, h2⟩ | ⟨d, h1, _, h2, _⟩ | ⟨d, sl, h1, _, _, h3⟩
    · exact h2
    · exfalso
      rw [if_neg (by simp)] at h1
      rw [h1] at hsrc
      exact absurd hsrc (by simp)
    · exfalso
      rw [if_neg (by simp)] at h1
      rw [h1] at hsrc
      exact absurd hsrc (by simp)
    · exfalso
      rw [if_neg (by simp)] at h1
      rw [h1] at hsrc
      exact absurd hsrc (by simp)

theorem claim9_emergency_override_witness :
    allocateToken exampleDB 0 "2025-01-01" "BOGUS" "q" false
      = (AllocResult.invalidSource, exampleDB) :=
  (claim9_emergency_override exampleDB 0 "2025-01-01" "BOGUS" "q").2 (by decide)

/-! ### Claim C5 -/

/-- Claim C5: displacement refusal.  During any `allocateToken` call the
pre-existing tokens of the store are preserved verbatim (the call at most
appends one new token), so no existing token whose priority score is
greater than or equal to the request's effective score ever has its
`slotId` changed; in particular an emergency can never move an occupant of
equal or higher score.  (In fact, since the displacement pass is
unreachable as a success path — `emergencyLoop_of_full` — no existing
token is ever moved by `allocateToken` at all, whatever its score.) -/
theorem claim5_no_higher_priority_displaced (db : DB) (did : Nat) (date src pn : String)
    (em : Bool) :
    (∃ newTokens, (allocateToken db did date src pn em).2.tokens = db.tokens ++ newTokens) ∧
    (∀ t ∈ db.tokens,
      getPriorityScore (if em then "EMERGENCY" else src) ≤ t.priorityScore →
      t ∈ (allocateToken db did date src pn em).2.tokens) := by
  rcases allocateToken_tokens_shape db did date src pn em with ⟨h1, -⟩ | ⟨tok, -, h2, -, -, -⟩
  · rw [h1]
    exact ⟨⟨[], by simp⟩, fun t ht _ => ht⟩
  · rw [h2]
    exact ⟨⟨[tok], rfl⟩, fun t ht _ => List.mem_append_left _ ht⟩

/-- A store with one doctor, two full single-capacity slots, the first
held by an EMERGENCY-scored token. -/
def c5db : DB :=
  { doctors := [{ id := 0, name := "Dr", startTime := 540, endTime := 570,
                  slotDurationMinutes := 15, maxPatientsPerSlot := 1 }],
    slots := [{ id := 1, doctorId := 0, date := "d", startTime := 540, endTime := 555,
                capacity := 1 },
              { id := 2, doctorId := 0, date := "d", startTime := 555, endTime := 570,
                capacity := 1 }],
    tokens := [{ id := 3, doctorId := 0, slotId := 1, date := "d", patientName := "p",
                 source := "EMERGENCY", priorityScore := 5,
                 status := TokenStatus.SCHEDULED }],
    nextId := 4 }

theorem claim5_no_higher_priority_displaced_witness :
    ({ id := 3, doctorId := 0, slotId := 1, date := "d", patientName := "p",
       source := "EMERGENCY", priorityScore := 5,
       status := TokenStatus.SCHEDULED } : Token)
      ∈ (allocateToken c5db 0 "d" "WALK_IN" "q" false).2.tokens :=
  (claim5_no_higher_priority_displaced c5db 0 "d" "WALK_IN" "q" false).2
    { id := 3, doctorId := 0, slotId := 1, date := "d", patientName := "p",
      source := "EMERGENCY", priorityScore := 5, status := TokenStatus.SCHEDULED }
    (by decide) (by decide)

/-! ### Claim C3 -/

lemma getDoctorById_some {db : DB} {did : Nat} {doctor : Doctor}
    (h : getDoctorById db did = some doctor) : doctor ∈ db.doctors ∧ doctor.id = did := by
  refine ⟨List.mem_of_find?_eq_some h, ?_⟩
  simpa using List.find?_some h

lemma sorted_before_of_suffix {l₁ l₂ : List Slot} {a b : Slot}
    (hsort : List.Sorted slotLe (l₁ ++ a :: l₂)) (hb : b ∈ l₂) : a.startTime ≤ b.startTime := by
  rw [List.Sorted, List.pairwise_append] at hsort
  exact (List.pairwise_cons.mp hsort.2.1).1 b hb

/-- Claim C3: earliest fit.  For a non-emergency request with a valid
source and a stored doctor: if, after ensuring the day's slots exist, some
slot of the (doctor, date) day has SCHEDULED count below capacity, the
call creates its token in the chronologically first such slot (every
strictly earlier slot of the day is full); if no slot of the day has free
capacity, the call returns the NoCapacity signal and the whole store —
doctors, slots, tokens and the id counter — is exactly as before the
call. -/
theorem claim3_earliest_fit (db : DB) (did : Nat) (date src pn : String)
    (hinv : StoreInv db) (hsrc : tokenSources.contains src = true)
    (doctor : Doctor) (hdoc : getDoctorById db did = some doctor) :
    ((∃ s ∈ getSlotsForDoctorDay (generateSlotsForDay db doctor date).2 did date,
        countSched (generateSlotsForDay db doctor date).2.tokens s.id < s.capacity) →
      ∃ t s, (allocateToken db did date src pn false).1 = AllocResult.token t ∧
        s ∈ getSlotsForDoctorDay (generateSlotsForDay db doctor date).2 did date ∧
        countSched (generateSlotsForDay db doctor date).2.tokens s.id < s.capacity ∧
        t.slotId = s.id ∧ t.status = TokenStatus.SCHEDULED ∧ t.source = src ∧
        (allocateToken db did date src pn false).2.tokens = db.tokens ++ [t] ∧
        ∀ s' ∈ getSlotsForDoctorDay (generateSlotsForDay db doctor date).2 did date,
          s'.startTime < s.startTime →
            ¬ countSched (generateSlotsForDay db doctor date).2.tokens s'.id < s'.capacity) ∧
    ((∀ s ∈ getSlotsForDoctorDay (generateSlotsForDay db doctor date).2 did date,
        ¬ countSched (generateSlotsForDay db doctor date).2.tokens s.id < s.capacity) →
      allocateToken db did date src pn false = (AllocResult.noCapacity, db)) := by
  have hsrc' : tokenSources.contains (if false then "EMERGENCY" else src) = true := by
    simpa using hsrc
  constructor
  · rintro ⟨sfree, hsfree, hfree⟩
    rcases allocateToken_shape db did date src pn false with
      ⟨h1, -⟩ | ⟨-, h1, -⟩ | ⟨d, -, h1, -, h2⟩ | ⟨d, slot, -, h1, h2, h3⟩
    · rw [hsrc'] at h1
      cases h1
    · rw [hdoc] at h1
      cases h1
    · exfalso
      rw [hdoc] at h1
      cases h1
      exact findFirstFreeSlot_eq_none.mp h2 sfree hsfree hfree
    · rw [hdoc] at h1
      cases h1
      obtain ⟨hmem, hcnt, l₁, l₂, hdec, hfull⟩ := findFirstFreeSlot_eq_some h2
      refine ⟨{ id := (generateSlotsForDay db doctor date).2.nextId, doctorId := did,
                slotId := slot.id, date := date, patientName := pn, source := src,
                priorityScore := getPriorityScore src,
                status := TokenStatus.SCHEDULED }, slot, ?_, hmem, hcnt, rfl, rfl, rfl,
              ?_, ?_⟩
      · rw [h3, createTokenInSlot_eq]
        rfl
      · rw [h3, createTokenInSlot_eq]
        show (generateSlotsForDay db doctor date).2.tokens ++ _ = db.tokens ++ _
        rw [generateSlotsForDay_tokens]
        rfl
      · intro s' hs' hlt
        have hsort := sorted_getSlotsForDoctorDay (generateSlotsForDay db doctor date).2 did date
        rw [hdec] at hs' hsort
        rcases List.mem_append.mp hs' with hmem1 | hmem2
        · exact hfull s' hmem1
        · rcases List.mem_cons.mp hmem2 with rfl | hmem2'
          · omega
          · have := sorted_before_of_suffix hsort hmem2'
            omega
  · intro hallfull
    rcases allocateToken_shape db did date src pn false with
      ⟨h1, -⟩ | ⟨-, h1, -⟩ | ⟨d, -, h1, h2, -⟩ | ⟨d, slot, -, h1, h2, -⟩
    · rw [hsrc'] at h1
      cases h1
    · rw [hdoc] at h1
      cases h1
    · rw [hdoc] at h1
      cases h1
      rw [h2]
      -- it remains to show that ensuring the slots changed nothing
      have hsnd : (generateSlotsForDay db doctor date).2 = db := by
        by_cases hflt :
            (db.slots.filter (fun s => decide (s.doctorId = doctor.id ∧ s.date = date))).length > 0
        · rw [generateSlotsForDay_eq, if_pos hflt]
        · obtain ⟨hsn, htn, hsl, htl, hdw, hcap⟩ := hinv
          have hbs : buildSlots doctor.id date doctor.slotDurationMinutes
              doctor.maxPatientsPerSlot doctor.endTime db.nextId doctor.startTime = [] := by
            cases hq : buildSlots doctor.id date doctor.slotDurationMinutes
                doctor.maxPatientsPerSlot doctor.endTime db.nextId doctor.startTime with
            | nil => rfl
            | cons s₀ rest =>
              exfalso
              have hs₀ : s₀ ∈ buildSlots doctor.id date doctor.slotDurationMinutes
                  doctor.maxPatientsPerSlot doctor.endTime db.nextId doctor.startTime := by
                rw [hq]
                exact List.mem_cons_self _ _
              obtain ⟨hf1, hf2, hf3, -, -, -⟩ := buildSlots_fields doctor.id date
                doctor.slotDurationMinutes doctor.maxPatientsPerSlot doctor.endTime
                db.nextId doctor.startTime s₀ hs₀
              have hid0 : db.nextId ≤ s₀.id := (buildSlots_id_bound hs₀).1
              have hs₀mem : s₀ ∈ getSlotsForDoctorDay (generateSlotsForDay db doctor date).2
                  did date := by
                rw [mem_getSlotsForDoctorDay, generateSlotsForDay_eq, if_neg hflt]
                dsimp only
                exact ⟨List.mem_append_right _ hs₀, by rw [hf1, (getDoctorById_some hdoc).2],
                  hf2⟩
              have hcount : countSched (generateSlotsForDay db doctor date).2.tokens s₀.id
                  = 0 := by
                rw [generateSlotsForDay_tokens]
                exact countSched_eq_zero_of_lt db.tokens db.nextId s₀.id
                  (fun t ht => (htl t ht).2) hid0
              have hcapd : 0 < doctor.maxPatientsPerSlot :=
                (hdw doctor (getDoctorById_some hdoc).1).2
              have := hallfull s₀ hs₀mem
              rw [hcount, hf3] at this
              omega
          rw [generateSlotsForDay_eq, if_neg hflt]
          dsimp only
          rw [hbs]
          cases db
          simp
      rw [hsnd]
    · exfalso
      rw [hdoc] at h1
      cases h1
      obtain ⟨hmem, hcnt, -⟩ := findFirstFreeSlot_eq_some h2
      exact hallfull slot hmem hcnt

/-- A fully booked day: one doctor, two single-capacity slots, both
holding a SCHEDULED walk-in. -/
def c3db : DB :=
  { doctors := [{ id := 0, name := "Dr", startTime := 540, endTime := 570,
                  slotDurationMinutes := 15, maxPatientsPerSlot := 1 }],
    slots := [{ id := 1, doctorId := 0, date := "d", startTime := 540, endTime := 555,
                capacity := 1 },
              { id := 2, doctorId := 0, date := "d", startTime := 555, endTime := 570,
                capacity := 1 }],
    tokens := [{ id := 3, doctorId := 0, slotId := 1, date := "d", patientName := "p1",
                 source := "WALK_IN", priorityScore := 1, status := TokenStatus.SCHEDULED },
               { id := 4, doctorId := 0, slotId := 2, date := "d", patientName := "p2",
                 source := "WALK_IN", priorityScore := 1, status := TokenStatus.SCHEDULED }],
    nextId := 5 }

theorem claim3_earliest_fit_witness :
    allocateToken c3db 0 "d" "WALK_IN" "q" false = (AllocResult.noCapacity, c3db) :=
  (claim3_earliest_fit c3db 0 "d" "WALK_IN" "q" (by decide) (by decide)
    { id := 0, name := "Dr", startTime := 540, endTime := 570,
      slotDurationMinutes := 15, maxPatientsPerSlot := 1 } (by decide)).2 (by decide)

/-! ### Claim C6 -/

/-- Stability of the descending sort: the head of `insertionSort tokGe l`
is the first element of `l` whose score is maximal — i.e. the first `y`
in storage order with `head.priorityScore ≤ y.priorityScore`. -/
lemma head_insertionSort_first_max :
    ∀ (l : List Token) (c : Token) (r : List Token),
      List.insertionSort tokGe l = c :: r →
      l.find? (fun y => decide (c.priorityScore ≤ y.priorityScore)) = some c := by
  intro l
  induction l with
  | nil => intro c r h; simp at h
  | cons x xs ih =>
    intro c r h
    simp only [List.insertionSort] at h
    cases hs : List.insertionSort tokGe xs with
    | nil =>
      rw [hs] at h
      simp only [List.orderedInsert] at h
      obtain ⟨rfl, rfl⟩ := List.cons.inj h
      rw [List.find?_cons_of_pos _ (by simp)]
    | cons c' r' =>
      rw [hs] at h
      by_cases hxc : tokGe x c'
      · rw [List.orderedInsert_of_le tokGe _ hxc] at h
        obtain ⟨rfl, rfl⟩ := List.cons.inj h
        rw [List.find?_cons_of_pos _ (by simp)]
      · simp only [List.orderedInsert, if_neg hxc] at h
        obtain ⟨rfl, -⟩ := List.cons.inj h
        have hx : ¬ (decide (c'.priorityScore ≤ x.priorityScore) = true) := by
          simp only [tokGe] at hxc
          simpa using hxc
        have hstep : List.find? (fun y => decide (c'.priorityScore ≤ y.priorityScore)) (x :: xs)
            = List.find? (fun y => decide (c'.priorityScore ≤ y.priorityScore)) xs :=
          List.find?_cons_of_neg xs hx
        rw [hstep]
        exact ih c' r' hs

lemma find?_filter_token (p q : Token → Bool) :
    ∀ l : List Token, (l.filter q).find? p = l.find? (fun a => q a && p a) := by
  intro l
  induction l with
  | nil => rfl
  | cons x xs ih =>
    by_cases hq : q x = true
    · rw [List.filter_cons_of_pos hq]
      by_cases hp : p x = true
      · rw [List.find?_cons_of_pos _ hp,
          List.find?_cons_of_pos _ (by simp [hq, hp])]
      · rw [List.find?_cons_of_neg _ hp,
          List.find?_cons_of_neg _ (by simp [Bool.and_eq_true]; intro; exact (by simpa using hp)),
          ih]
    · rw [List.filter_cons_of_neg (by simpa using hq),
        List.find?_cons_of_neg _ (by simp [Bool.and_eq_true]; intro h; exact absurd h hq), ih]

/-- The head of `getTokensForSlot` is a SCHEDULED token of the slot that
is maximal in priority and earliest in storage order among the maximal
ones. -/
lemma getTokensForSlot_head {db : DB} {sid : Nat} {c : Token} {r : List Token}
    (h : getTokensForSlot db sid = c :: r) :
    c ∈ db.tokens ∧ c.slotId = sid ∧ c.status = TokenStatus.SCHEDULED ∧
    (∀ y ∈ db.tokens, y.slotId = sid → y.status = TokenStatus.SCHEDULED →
      y.priorityScore ≤ c.priorityScore) ∧
    db.tokens.find? (fun y =>
      decide (y.slotId = sid ∧ y.status = TokenStatus.SCHEDULED) &&
      decide (c.priorityScore ≤ y.priorityScore)) = some c := by
  have hcmem : c ∈ getTokensForSlot db sid := by
    rw [h]
    exact List.mem_cons_self _ _
  obtain ⟨h1, h2, h3⟩ := mem_getTokensForSlot.mp hcmem
  refine ⟨h1, h2, h3, ?_, ?_⟩
  · intro y hy hys hysch
    have hymem : y ∈ getTokensForSlot db sid := mem_getTokensForSlot.mpr ⟨hy, hys, hysch⟩
    rw [h] at hymem
    rcases List.mem_cons.mp hymem with rfl | hymem'
    · exact Nat.le_refl _
    · have hsorted : List.Sorted tokGe (getTokensForSlot db sid) :=
        List.sorted_insertionSort tokGe _
      rw [h, List.Sorted, List.pairwise_cons] at hsorted
      exact hsorted.1 y hymem'
  · have := head_insertionSort_first_max
      (db.tokens.filter (fun t => decide (t.slotId = sid ∧ t.status = TokenStatus.SCHEDULED)))
      c r h
    rw [find?_filter_token] at this
    exact this

lemma slotsAfterFreed_eq_none {fsid : Nat} :
    ∀ {l : List Slot}, slotsAfterFreed fsid l = none ↔ ∀ s ∈ l, s.id ≠ fsid := by
  intro l
  induction l with
  | nil => simp [slotsAfterFreed]
  | cons s rest ih =>
    by_cases h : s.id = fsid
    · simp only [slotsAfterFreed, if_pos h]
      constructor
      · intro hc
        cases hc
      · intro hall
        exact absurd h (hall s (List.mem_cons_self _ _))
    · simp only [slotsAfterFreed, if_neg h, ih]
      constructor
      · intro hall s' hs'
        rcases List.mem_cons.mp hs' with rfl | hm
        · exact h
        · exact hall s' hm
      · intro hall s' hs'
        exact hall s' (List.mem_cons_of_mem s hs')

lemma rebalanceLoop_of_empty (db : DB) (fsid : Nat) :
    ∀ l : List Slot, (∀ s ∈ l, countSched db.tokens s.id = 0) →
      rebalanceLoop db fsid l = db := by
  intro l
  induction l with
  | nil => intro _; rfl
  | cons s rest ih =>
    intro h
    have hempty : getTokensForSlot db s.id = [] := by
      rw [← List.length_eq_zero, length_getTokensForSlot]
      exact h s (List.mem_cons_self _ _)
    simp only [rebalanceLoop, hempty]
    exact ih (fun u hu => h u (List.mem_cons_of_mem s hu))

lemma rebalanceLoop_move (db : DB) (fsid : Nat) :
    ∀ (r₁ : List Slot) (s₀ : Slot) (r₂ : List Slot),
      (∀ s ∈ r₁, countSched db.tokens s.id = 0) → countSched db.tokens s₀.id ≠ 0 →
      ∃ c r, getTokensForSlot db s₀.id = c :: r ∧
        rebalanceLoop db fsid (r₁ ++ s₀ :: r₂) =
          { db with tokens :=
              updateTokenById c.id (fun t => { t with slotId := fsid }) db.tokens } := by
  intro r₁
  induction r₁ with
  | nil =>
    intro s₀ r₂ _ hnz
    cases hts : getTokensForSlot db s₀.id with
    | nil =>
      exfalso
      apply hnz
      rw [← length_getTokensForSlot, hts]
      rfl
    | cons c r =>
      refine ⟨c, r, rfl, ?_⟩
      simp only [List.nil_append, rebalanceLoop, hts]
  | cons s rest ih =>
    intro s₀ r₂ hz hnz
    have hempty : getTokensForSlot db s.id = [] := by
      rw [← List.length_eq_zero, length_getTokensForSlot]
      exact hz s (List.mem_cons_self _ _)
    obtain ⟨c, r, hts, hloop⟩ := ih s₀ r₂ (fun u hu => hz u (List.mem_cons_of_mem s hu)) hnz
    refine ⟨c, r, hts, ?_⟩
    simp only [List.cons_append, rebalanceLoop, hempty]
    exact hloop

/-- Claim C6: rebalance after cancel and no-show.  A successful
`cancelToken` or `markNoShow` on a SCHEDULED token runs the identical
procedure `rebalanceAfterFreeSlot` on the store holding the terminal
status, with the vacated slot as the freed slot.  That procedure: does
nothing when the freed slot id is not in the day's slot sequence
(`slotsAfterFreed` is `none` exactly then) or when no strictly later slot
holds a SCHEDULED token; otherwise, at the first later slot with a
SCHEDULED token, it moves exactly that slot's highest-priority SCHEDULED
token — ties broken by storage order, earliest first, this being the
`find?` characterisation — into the freed slot, and moves nothing else. -/
theorem claim6_rebalance (db : DB) (d : Nat) (dt : String) (fsid tid : Nat) :
    (slotsAfterFreed fsid (getSlotsForDoctorDay db d dt) = none ↔
      ∀ s ∈ getSlotsForDoctorDay db d dt, s.id ≠ fsid) ∧
    (slotsAfterFreed fsid (getSlotsForDoctorDay db d dt) = none →
      rebalanceAfterFreeSlot db d dt fsid = db) ∧
    (∀ rest, slotsAfterFreed fsid (getSlotsForDoctorDay db d dt) = some rest →
      (∀ s ∈ rest, countSched db.tokens s.id = 0) →
      rebalanceAfterFreeSlot db d dt fsid = db) ∧
    (∀ rest r₁ s₀ r₂, slotsAfterFreed fsid (getSlotsForDoctorDay db d dt) = some rest →
      rest = r₁ ++ s₀ :: r₂ → (∀ s ∈ r₁, countSched db.tokens s.id = 0) →
      countSched db.tokens s₀.id ≠ 0 →
      ∃ c,
        c ∈ db.tokens ∧ c.slotId = s₀.id ∧ c.status = TokenStatus.SCHEDULED ∧
        (∀ y ∈ db.tokens, y.slotId = s₀.id → y.status = TokenStatus.SCHEDULED →
          y.priorityScore ≤ c.priorityScore) ∧
        db.tokens.find? (fun y =>
          decide (y.slotId = s₀.id ∧ y.status = TokenStatus.SCHEDULED) &&
          decide (c.priorityScore ≤ y.priorityScore)) = some c ∧
        rebalanceAfterFreeSlot db d dt fsid =
          { db with tokens :=
              updateTokenById c.id (fun t => { t with slotId := fsid }) db.tokens } ∧
        (∀ u ∈ db.tokens, u.id ≠ c.id →
          u ∈ (rebalanceAfterFreeSlot db d dt fsid).tokens)) ∧
    (∀ token, db.tokens.find? (fun t => decide (t.id = tid)) = some token →
      token.status = TokenStatus.SCHEDULED →
      (cancelToken db tid).2 =
        rebalanceAfterFreeSlot
          { db with tokens :=
              updateTokenById tid (fun t => { t with status := TokenStatus.CANCELLED }) db.tokens }
          token.doctorId token.date token.slotId ∧
      (markNoShow db tid).2 =
        rebalanceAfterFreeSlot
          { db with tokens :=
              updateTokenById tid (fun t => { t with status := TokenStatus.NO_SHOW }) db.tokens }
          token.doctorId token.date token.slotId) := by
  refine ⟨slotsAfterFreed_eq_none, ?_, ?_, ?_, ?_⟩
  · intro h
    simp [rebalanceAfterFreeSlot, h]
  · intro rest h hz
    simp only [rebalanceAfterFreeSlot, h]
    exact rebalanceLoop_of_empty db fsid rest hz
  · intro rest r₁ s₀ r₂ h hdec hz hnz
    obtain ⟨c, r, hts, hloop⟩ := rebalanceLoop_move db fsid r₁ s₀ r₂ hz hnz
    obtain ⟨hc1, hc2, hc3, hc4, hc5⟩ := getTokensForSlot_head hts
    refine ⟨c, hc1, hc2, hc3, hc4, hc5, ?_, ?_⟩
    · simp only [rebalanceAfterFreeSlot, h, hdec]
      exact hloop
    · intro u hu hne
      have : rebalanceAfterFreeSlot db d dt fsid =
          { db with tokens :=
              updateTokenById c.id (fun t => { t with slotId := fsid }) db.tokens } := by
        simp only [rebalanceAfterFreeSlot, h, hdec]
        exact hloop
      rw [this]
      exact updateTokenById_mem_of_ne hu hne
  · intro token hfind hst
    constructor
    · simp [cancelToken, hfind, hst]
    · simp [markNoShow, hfind, hst]

theorem claim6_rebalance_witness :
    rebalanceAfterFreeSlot c5db 0 "d" 1 = c5db := by
  refine (claim6_rebalance c5db 0 "d" 1 0).2.2.1
    [{ id := 2, doctorId := 0, date := "d", startTime := 555, endTime := 570,
       capacity := 1 }] (by decide) (by decide)

/-! ### Claim C4 -/

/-- The emergency path of `allocateToken` can never succeed by
displacement: it is entered only after pass 1 has found every slot of the
day at capacity, and then the inner search for a strictly later slot with
free capacity — the precondition for any displacement — can find nothing,
so the call returns NoCapacity and the store stays the post-`ensureSlots`
store.  The displacement move `lowest.slotId = laterSlot.id` of the
source is unreachable. -/
theorem allocate_emergency_full_noCapacity (db : DB) (did : Nat) (date src pn : String)
    (doctor : Doctor) (hdoc : getDoctorById db did = some doctor)
    (hfull : ∀ s ∈ getSlotsForDoctorDay (generateSlotsForDay db doctor date).2 did date,
      ¬ countSched (generateSlotsForDay db doctor date).2.tokens s.id < s.capacity) :
    allocateToken db did date src pn true
      = (AllocResult.noCapacity, (generateSlotsForDay db doctor date).2) := by
  rcases allocateToken_shape db did date src pn true with
    ⟨h1, -⟩ | ⟨-, h1, -⟩ | ⟨dd, -, h1, h2, -⟩ | ⟨dd, slot, -, h1, h2, -⟩
  · exfalso
    rw [if_pos rfl] at h1
    exact absurd h1 (by decide)
  · rw [hdoc] at h1
    cases h1
  · rw [hdoc] at h1
    cases h1
    exact h2
  · rw [hdoc] at h1
    cases h1
    obtain ⟨hmem, hcnt, -⟩ := findFirstFreeSlot_eq_some h2
    exact absurd hcnt (hfull slot hmem)

/-- A day embodying the spec's displacement example as nearly as its
contradictory wording allows: slot 1 (capacity 1) holds a SCHEDULED
WALK_IN of score 1, slot 2 (capacity 1) is free. -/
def c4db : DB :=
  { doctors := [{ id := 0, name := "Dr", startTime := 540, endTime := 570,
                  slotDurationMinutes := 15, maxPatientsPerSlot := 1 }],
    slots := [{ id := 1, doctorId := 0, date := "d", startTime := 540, endTime := 555,
                capacity := 1 },
              { id := 2, doctorId := 0, date := "d", startTime := 555, endTime := 570,
                capacity := 1 }],
    tokens := [{ id := 3, doctorId := 0, slotId := 1, date := "d", patientName := "walkin",
                 source := "WALK_IN", priorityScore := 1, status := TokenStatus.SCHEDULED }],
    nextId := 4 }

/-- Claim C4, evaluated on the code at the failing input `c4db` (slot 1
full with a WALK_IN of score 1, slot 2 free): an EMERGENCY request is
placed by pass 1 into the free later slot 2, and the WALK_IN stays in
slot 1 — no displacement happens, where the spec's displacement story
expects the emergency in slot 1 and the WALK_IN moved to slot 2.
Displacement itself can never fire (`allocate_emergency_full_noCapacity`):
its guard requires every slot full, its success requires a free later
slot. -/
theorem claim4_displacement_never_fires :
    (allocateToken c4db 0 "d" "PAID" "em" true).1 =
      AllocResult.token { id := 4, doctorId := 0, slotId := 2, date := "d",
                          patientName := "em", source := "EMERGENCY", priorityScore := 5,
                          status := TokenStatus.SCHEDULED } ∧
    ({ id := 3, doctorId := 0, slotId := 1, date := "d", patientName := "walkin",
       source := "WALK_IN", priorityScore := 1, status := TokenStatus.SCHEDULED } : Token)
      ∈ (allocateToken c4db 0 "d" "PAID" "em" true).2.tokens := by decide
